import Mathlib

/-!
Shallow embedding of the `syllable` crate (src/lib.rs): a syllable counter
built from a dictionary tier, a memoization cache, input normalization and a
vowel-cluster heuristic.

Modelling conventions:
* Words are `List Char`.  Every word that reaches `get_syllable_count` has
  been validated to be ASCII-alphabetic, so Rust's byte length (`str::len`)
  equals the character count and list length stands in for it.
* Rust panics (out-of-bounds indexing, `usize` underflow followed by an
  out-of-bounds index) are modelled as `none`; a normal return of `v` is
  `some v`.
* The `HashMap` cache is modelled as an association list; the code only
  inserts a key after a lookup miss, so keys stay unique and prepending
  models `HashMap::insert` exactly.
-/

/-- Rust `char::is_ascii_punctuation`: the four ASCII punctuation ranges
U+0021-U+002F, U+003A-U+0040, U+005B-U+0060, U+007B-U+007E. -/
def is_ascii_punctuation (c : Char) : Bool :=
  decide ((0x21 ≤ c.toNat ∧ c.toNat ≤ 0x2f) ∨ (0x3a ≤ c.toNat ∧ c.toNat ≤ 0x40) ∨
    (0x5b ≤ c.toNat ∧ c.toNat ≤ 0x60) ∨ (0x7b ≤ c.toNat ∧ c.toNat ≤ 0x7e))

/-- Rust `u8::is_ascii_alphabetic` / `char::is_ascii_alphabetic`:
A-Z or a-z. -/
def is_ascii_alphabetic (c : Char) : Bool :=
  decide ((0x41 ≤ c.toNat ∧ c.toNat ≤ 0x5a) ∨ (0x61 ≤ c.toNat ∧ c.toNat ≤ 0x7a))

/-- Rust `char::is_ascii_uppercase`: A-Z. -/
def is_ascii_uppercase (c : Char) : Bool :=
  decide (0x41 ≤ c.toNat ∧ c.toNat ≤ 0x5a)

/-- Lowercase ASCII letter a-z (used to state cache-key invariants). -/
def is_lower_alpha (c : Char) : Bool :=
  decide (0x61 ≤ c.toNat ∧ c.toNat ≤ 0x7a)

/-- Rust `char::to_ascii_lowercase`: shift A-Z down into a-z, leave
every other character unchanged. -/
def to_ascii_lowercase_char (c : Char) : Char :=
  if is_ascii_uppercase c then Char.ofNat (c.toNat + 32) else c

/-- `str::to_ascii_lowercase` (lib.rs line 30), character by character. -/
def to_ascii_lowercase (l : List Char) : List Char :=
  l.map to_ascii_lowercase_char

/-- Drop the longest prefix of characters matching `p`
(the leading half of `str::trim_matches`). -/
def trim_start (p : Char → Bool) (l : List Char) : List Char :=
  l.dropWhile p

/-- Drop the longest suffix of characters matching `p`
(the trailing half of `str::trim_matches`). -/
def trim_end (p : Char → Bool) (l : List Char) : List Char :=
  (l.reverse.dropWhile p).reverse

/-- Rust `str::trim_matches(p)`: repeatedly remove matching characters from
both ends, leaving the interior untouched. -/
def trim_matches (p : Char → Bool) (l : List Char) : List Char :=
  trim_end p (trim_start p l)

/-- The normalization performed at the top of `Counter::count`
(lib.rs lines 28-30): trim leading/trailing ASCII punctuation, then
ASCII-lowercase the result. -/
def normalize_word (word : List Char) : List Char :=
  to_ascii_lowercase (trim_matches is_ascii_punctuation word)

/-- The validity test of `Counter::count` (lib.rs line 32): the normalized
word is rejected when it is empty or any byte is not ASCII-alphabetic.
A non-ASCII character's UTF-8 bytes are all at least 0x80, hence never
alphabetic, so the byte-level test is equivalent to this character-level
test. -/
def invalid_input (w : List Char) : Bool :=
  w.isEmpty || w.any (fun u => !is_ascii_alphabetic u)

/-- `is_vowel` from `get_syllable_count` (lib.rs lines 77-82). -/
def is_vowel (u : Char) : Bool :=
  u == 'a' || u == 'e' || u == 'i' || u == 'o' || u == 'u' || u == 'y'

/-- The `characters.windows(2)` loop of `get_syllable_count`
(lib.rs lines 92-98): one increment for every adjacent pair whose right
member is a vowel and whose left member is not. -/
def pair_count : List Char → Nat
  | left :: right :: rest =>
      (if is_vowel right && !is_vowel left then 1 else 0) + pair_count (right :: rest)
  | _ => 0

/-- The initial-vowel check of `get_syllable_count` (lib.rs lines 88-90):
one increment when the first character is a vowel.  `characters[0]` panics
on an empty word; that case is guarded separately in `get_syllable_count`. -/
def first_vowel_count (word : List Char) : Nat :=
  match word with
  | [] => 0
  | c :: _ => if is_vowel c then 1 else 0

/-- The running count after lib.rs line 98: initial-vowel increment plus
the windows(2) vowel-cluster-start count. -/
def base_count (word : List Char) : Nat :=
  first_vowel_count word + pair_count word

/-- Rust `word.ends_with('e')`. -/
def ends_with_e (word : List Char) : Bool :=
  word.getLast? == some 'e'

/-- Rust `word.ends_with("le")`. -/
def ends_with_le (word : List Char) : Bool :=
  match word.reverse with
  | 'e' :: 'l' :: _ => true
  | _ => false

/-- The silent-e correction (lib.rs lines 100-102): `syllable_count -= 1`
on a `usize`; subtracting from zero is a panic, modelled as `none`. -/
def silent_e_step (word : List Char) (n : Nat) : Option Nat :=
  if ends_with_e word then
    if n = 0 then none else some (n - 1)
  else some n

/-- The `-le` restoration (lib.rs lines 104-106):
`word.ends_with("le") && word.len() > 2 && !is_vowel(characters[word.len() - 4])`.
For a word of length 3 the index `word.len() - 4` underflows `usize`
(a panic in debug builds; in release it wraps and the subsequent indexing
is out of bounds, also a panic), modelled as `none`.  For length at least 4
the index `len - 4` is in bounds. -/
def le_step (word : List Char) (n : Nat) : Option Nat :=
  if ends_with_le word && decide (2 < word.length) then
    if 4 ≤ word.length then
      (word.get? (word.length - 4)).map (fun c => if !is_vowel c then n + 1 else n)
    else none
  else some n

/-- `get_syllable_count` (lib.rs lines 59-109): initial-vowel and
vowel-cluster counting, silent-e correction, `-le` restoration, then
`cmp::max(1, syllable_count)`.  `characters[0]` panics on the empty word. -/
def get_syllable_count (word : List Char) : Option Nat :=
  if word.isEmpty then none
  else
    (silent_e_step word (base_count word)).bind fun n =>
      (le_step word n).map fun m => max 1 m

/-- The engine state (lib.rs lines 5-9): the static dictionary and the
memoization cache.  The dictionary is an abstract lookup function because
its contents (`data::SYLLABLE_DATA`, `mod data`) are external static data. -/
structure Counter where
  dictionary : List Char → Option Nat
  cache : List (List Char × Nat)

/-- `Counter::cached_count` (lib.rs lines 45-50): dictionary lookup first,
falling back to the cache (`Option::or_else`). -/
def Counter.cached_count (self : Counter) (word : List Char) : Option Nat :=
  match self.dictionary word with
  | some n => some n
  | none => List.lookup word self.cache

/-- `Counter::count` (lib.rs lines 27-43): normalize, validate (returning
the 0 sentinel on invalid input), consult dictionary then cache, and on a
double miss run the heuristic and insert the result into the cache.
Returns `some (result, new state)`, or `none` when the heuristic panics. -/
def Counter.count (self : Counter) (word : List Char) : Option (Nat × Counter) :=
  let w := normalize_word word
  if invalid_input w then
    some (0, self)
  else
    match self.cached_count w with
    | some known_count => some (known_count, self)
    | none =>
      match get_syllable_count w with
      | none => none
      | some syllable_count =>
        some (syllable_count, ⟨self.dictionary, (w, syllable_count) :: self.cache⟩)

/-- The value returned to the caller, without the updated engine state. -/
def countVal (self : Counter) (word : List Char) : Option Nat :=
  (self.count word).map Prod.fst

/-- Modelled from the spec: `Counter::new` (lib.rs lines 12-22) builds the
dictionary from `data::SYLLABLE_DATA`, whose defining module `data` is not
part of the sources here; the spec treats the dictionary as "an external,
read-only collaborator supplying a mapping from lowercase word to a
positive integer syllable count", so a fresh engine is parameterized by
that mapping and starts with an empty cache. -/
def Counter.new (dict : List Char → Option Nat) : Counter :=
  ⟨dict, []⟩

/-- A dictionary with no entries, used to exercise the heuristic tier. -/
def emptyDictionary : List Char → Option Nat := fun _ => none

/-- Unfolding `Counter::count` on invalid input: the 0 sentinel, no state
change. -/
theorem count_of_invalid (c : Counter) (w : List Char)
    (h : invalid_input (normalize_word w) = true) :
    c.count w = some (0, c) := by
  unfold Counter.count
  simp [h]

/-- Unfolding `Counter::count` on a dictionary-or-cache hit: the stored
value, no state change. -/
theorem count_of_hit (c : Counter) (w : List Char) (k : Nat)
    (hv : invalid_input (normalize_word w) = false)
    (hk : c.cached_count (normalize_word w) = some k) :
    c.count w = some (k, c) := by
  unfold Counter.count
  simp [hv, hk]

/-- Unfolding `Counter::count` on a double miss: the heuristic runs and its
result is inserted into the cache (or its panic propagates). -/
theorem count_of_miss (c : Counter) (w : List Char)
    (hv : invalid_input (normalize_word w) = false)
    (hm : c.cached_count (normalize_word w) = none) :
    c.count w = (get_syllable_count (normalize_word w)).map
      (fun n => (n, ⟨c.dictionary, (normalize_word w, n) :: c.cache⟩)) := by
  unfold Counter.count
  simp only [hv, Bool.false_eq_true, if_false, hm]
  cases get_syllable_count (normalize_word w) <;> rfl

/-- A combined-lookup miss means both the dictionary and the cache miss. -/
theorem cached_count_eq_none (c : Counter) (w : List Char)
    (h : c.cached_count w = none) :
    c.dictionary w = none ∧ List.lookup w c.cache = none := by
  unfold Counter.cached_count at h
  cases hd : c.dictionary w with
  | none => rw [hd] at h; exact ⟨rfl, h⟩
  | some n => rw [hd] at h; cases h

/-- A dictionary hit is a combined-lookup hit, whatever the cache holds. -/
theorem cached_count_of_dict (c : Counter) (w : List Char) (k : Nat)
    (h : c.dictionary w = some k) :
    c.cached_count w = some k := by
  unfold Counter.cached_count
  rw [h]

/-- `Counter::count` depends on its argument only through normalization. -/
theorem count_congr (c : Counter) (w₁ w₂ : List Char)
    (h : normalize_word w₁ = normalize_word w₂) :
    c.count w₁ = c.count w₂ := by
  unfold Counter.count
  rw [h]

/-- The result of `count` on a fresh engine whose dictionary is either
silent on the word or agrees with the heuristic. -/
theorem countVal_new_of_cases (d : List Char → Option Nat) (w : List Char)
    (k : Nat)
    (hv : invalid_input (normalize_word w) = false)
    (hh : get_syllable_count (normalize_word w) = some k)
    (hd : d (normalize_word w) = none ∨ d (normalize_word w) = some k) :
    countVal (Counter.new d) w = some k := by
  rcases hd with h | h
  · have hm : (Counter.new d).cached_count (normalize_word w) = none := by
      unfold Counter.cached_count Counter.new
      simp [h]
    rw [countVal, count_of_miss _ _ hv hm, hh]
    rfl
  · have hc : (Counter.new d).cached_count (normalize_word w) = some k :=
      cached_count_of_dict _ _ _ h
    rw [countVal, count_of_hit _ _ _ hv hc]
    rfl

/-- A dictionary hit decides the result, whatever the cache holds. -/
theorem countVal_of_dict (d : List Char → Option Nat)
    (cache : List (List Char × Nat)) (w : List Char) (K : Nat)
    (hv : invalid_input (normalize_word w) = false)
    (hd : d (normalize_word w) = some K) :
    countVal ⟨d, cache⟩ w = some K := by
  rw [countVal, count_of_hit _ _ _ hv (cached_count_of_dict ⟨d, cache⟩ _ _ hd)]
  rfl

/-- C1: the claim says `count` returns without panicking for every input
string.  It does not: on the valid three-letter word "zle", absent from
dictionary and cache, the `-le` correction evaluates
`characters[word.len() - 4]`, and `3 - 4` underflows `usize` (debug panic;
in release the wrapped index is out of bounds, also a panic).  The
embedding models the panic as `none`: `count` on a fresh engine with a
dictionary not containing "zle" aborts instead of returning a value. -/
theorem count_panics_on_zle :
    (Counter.new emptyDictionary).count "zle".toList = none := by
  rfl

/-- C2: the claim (and the syllapy reference comment in the source,
`word[-3] not in vowels`) says the `-le` correction tests the character at
index length−3, the one immediately preceding the "le" suffix.  The code
tests `characters[word.len() - 4]` instead.  On "oodle" (length 5) the
claim tests index 2, the consonant 'd', and so predicts the increment and
a final count of 2; the code tests index 1, the vowel 'o', skips the
increment, and returns 1. -/
theorem get_syllable_count_oodle :
    get_syllable_count "oodle".toList = some 1 := by
  decide

/-- C4: the sentinel part of the claim holds (see the conjuncts on "",
" " and digit-carrying strings), but the minimum-one part fails: "xle" is
a valid word (non-empty, all lowercase ASCII alphabetic), yet on a fresh
engine whose dictionary lacks it, `count` panics in the `-le` correction
(`3 - 4` on a `usize`) instead of returning a value ≥ 1. -/
theorem count_xle_no_result :
    countVal (Counter.new emptyDictionary) "".toList = some 0 ∧
    countVal (Counter.new emptyDictionary) " ".toList = some 0 ∧
    countVal (Counter.new emptyDictionary) "d0g".toList = some 0 ∧
    countVal (Counter.new emptyDictionary) "4dog".toList = some 0 ∧
    countVal (Counter.new emptyDictionary) "dog123".toList = some 0 ∧
    invalid_input (normalize_word "xle".toList) = false ∧
    countVal (Counter.new emptyDictionary) "xle".toList = none := by
  refine ⟨rfl, rfl, rfl, rfl, rfl, by decide, rfl⟩

/-- C5: a dictionary hit on the normalized word decides the result: the
dictionary is consulted before the cache (`Option::or_else` in
`cached_count`), so any cache entry for the same word is shadowed. -/
theorem dictionary_precedence (d : List Char → Option Nat)
    (cache : List (List Char × Nat)) (w : List Char) (K : Nat)
    (hv : invalid_input (normalize_word w) = false)
    (hd : d (normalize_word w) = some K) :
    countVal ⟨d, cache⟩ w = some K :=
  countVal_of_dict d cache w K hv hd

/-- A one-word dictionary mapping "dog" to 7, deliberately different from
both the heuristic value (1) and a planted cache value (3). -/
def dogDictionary : List Char → Option Nat :=
  fun w => if w = "dog".toList then some 7 else none

/-- C5 witness: with dictionary entry ("dog", 7) and a conflicting cache
entry ("dog", 3), `count "dog"` returns the dictionary's 7. -/
theorem dictionary_precedence_witness :
    countVal ⟨dogDictionary, [("dog".toList, 3)]⟩ "dog".toList = some 7 :=
  dictionary_precedence dogDictionary [("dog".toList, 3)] "dog".toList 7
    (by decide) (by decide)

/-- C3: the four end-to-end cases of the spec, on a fresh engine whose
dictionary — abstract here, since the static data is external — is either
silent on each word or carries the spec's value for it (the real curated
dictionary satisfies this: these are the words' true syllable counts,
which the heuristic also computes). -/
theorem count_concrete_cases (d : List Char → Option Nat)
    (hbecause : d "because".toList = none ∨ d "because".toList = some 2)
    (hwoman : d "woman".toList = none ∨ d "woman".toList = some 2)
    (hintl : d "international".toList = none ∨ d "international".toList = some 5)
    (host : d "ostentatious".toList = none ∨ d "ostentatious".toList = some 4) :
    countVal (Counter.new d) "because".toList = some 2 ∧
    countVal (Counter.new d) "woman".toList = some 2 ∧
    countVal (Counter.new d) "international".toList = some 5 ∧
    countVal (Counter.new d) "ostentatious".toList = some 4 := by
  refine ⟨?_, ?_, ?_, ?_⟩
  · refine countVal_new_of_cases d _ 2 (by decide) (by decide) ?_
    rw [show normalize_word "because".toList = "because".toList from by decide]
    exact hbecause
  · refine countVal_new_of_cases d _ 2 (by decide) (by decide) ?_
    rw [show normalize_word "woman".toList = "woman".toList from by decide]
    exact hwoman
  · refine countVal_new_of_cases d _ 5 (by decide) (by decide) ?_
    rw [show normalize_word "international".toList = "international".toList from by decide]
    exact hintl
  · refine countVal_new_of_cases d _ 4 (by decide) (by decide) ?_
    rw [show normalize_word "ostentatious".toList = "ostentatious".toList from by decide]
    exact host

/-- C3 witness: the empty dictionary satisfies every hypothesis, so a
fresh engine reproduces all four literal values through the heuristic. -/
theorem count_concrete_cases_witness :
    countVal (Counter.new emptyDictionary) "because".toList = some 2 ∧
    countVal (Counter.new emptyDictionary) "woman".toList = some 2 ∧
    countVal (Counter.new emptyDictionary) "international".toList = some 5 ∧
    countVal (Counter.new emptyDictionary) "ostentatious".toList = some 4 :=
  count_concrete_cases emptyDictionary (Or.inl rfl) (Or.inl rfl)
    (Or.inl rfl) (Or.inl rfl)

/-- C6: trimming and case-folding.  The "dog!!!!!"/"dog" equation holds
for every engine state because both inputs normalize to the same word; the
literal values for Norway and Ohio hold on a fresh engine whose abstract
dictionary is consistent with them ("ohio" must be a dictionary entry with
value 3 — the heuristic alone computes 2 — while "norway" may be absent or
mapped to its heuristic value 2). -/
theorem normalization_trim_case (d : List Char → Option Nat)
    (cache : List (List Char × Nat))
    (hnorway : d "norway".toList = none ∨ d "norway".toList = some 2)
    (hohio : d "ohio".toList = some 3) :
    countVal ⟨d, cache⟩ "dog!!!!!".toList = countVal ⟨d, cache⟩ "dog".toList ∧
    countVal (Counter.new d) "Norway".toList = some 2 ∧
    countVal (Counter.new d) "norway".toList = some 2 ∧
    countVal (Counter.new d) "Ohio".toList = some 3 ∧
    countVal (Counter.new d) "ohio".toList = some 3 := by
  refine ⟨?_, ?_, ?_, ?_, ?_⟩
  · unfold countVal
    rw [count_congr ⟨d, cache⟩ "dog!!!!!".toList "dog".toList (by decide)]
  · refine countVal_new_of_cases d _ 2 (by decide) (by decide) ?_
    rw [show normalize_word "Norway".toList = "norway".toList from by decide]
    exact hnorway
  · refine countVal_new_of_cases d _ 2 (by decide) (by decide) ?_
    rw [show normalize_word "norway".toList = "norway".toList from by decide]
    exact hnorway
  · refine countVal_of_dict d [] _ 3 (by decide) ?_
    rw [show normalize_word "Ohio".toList = "ohio".toList from by decide]
    exact hohio
  · refine countVal_of_dict d [] _ 3 (by decide) ?_
    rw [show normalize_word "ohio".toList = "ohio".toList from by decide]
    exact hohio

/-- A one-word dictionary carrying the irregular entry ("ohio", 3). -/
def ohioDictionary : List Char → Option Nat :=
  fun w => if w = "ohio".toList then some 3 else none

/-- C6 witness: with the ("ohio", 3) dictionary all five conclusions hold
on concrete inputs. -/
theorem normalization_trim_case_witness :
    countVal ⟨ohioDictionary, []⟩ "dog!!!!!".toList
        = countVal ⟨ohioDictionary, []⟩ "dog".toList ∧
    countVal (Counter.new ohioDictionary) "Norway".toList = some 2 ∧
    countVal (Counter.new ohioDictionary) "norway".toList = some 2 ∧
    countVal (Counter.new ohioDictionary) "Ohio".toList = some 3 ∧
    countVal (Counter.new ohioDictionary) "ohio".toList = some 3 :=
  normalization_trim_case ohioDictionary [] (Or.inl (by decide)) (by decide)

/-- C7: determinism / idempotence.  Whenever a call returns a value `k`
with successor state `c'`, repeating the call on `c'` (the same engine
instance, now possibly holding a fresh cache entry) returns the same `k`
and leaves the state fixed; in particular both calls observe the same
value.  Cross-instance determinism is structural in this model: `count` is
a function of the engine state, so two engines with equal dictionary and
cache fields are literally the same argument. -/
theorem count_deterministic (c : Counter) (w : List Char) (k : Nat)
    (c' : Counter) (h : c.count w = some (k, c')) :
    c'.count w = some (k, c') ∧ countVal c' w = countVal c w := by
  have hmain : c'.count w = some (k, c') := by
    by_cases hv : invalid_input (normalize_word w) = true
    · rw [count_of_invalid c w hv] at h
      rw [Option.some.injEq, Prod.mk.injEq] at h
      obtain ⟨rfl, rfl⟩ := h
      exact count_of_invalid c w hv
    · rw [Bool.not_eq_true] at hv
      cases hcc : c.cached_count (normalize_word w) with
      | some n =>
        rw [count_of_hit c w n hv hcc] at h
        rw [Option.some.injEq, Prod.mk.injEq] at h
        obtain ⟨rfl, rfl⟩ := h
        exact count_of_hit c w n hv hcc
      | none =>
        rw [count_of_miss c w hv hcc] at h
        cases hg : get_syllable_count (normalize_word w) with
        | none => rw [hg] at h; cases h
        | some n =>
          rw [hg] at h
          simp only [Option.map_some', Option.some.injEq, Prod.mk.injEq] at h
          obtain ⟨rfl, rfl⟩ := h
          have hd : c.dictionary (normalize_word w) = none :=
            (cached_count_eq_none c _ hcc).1
          refine count_of_hit _ w n hv ?_
          unfold Counter.cached_count
          simp [hd]
  refine ⟨hmain, ?_⟩
  rw [countVal, countVal, h, hmain]

/-- The engine state after computing "dog" on a fresh empty-dictionary
engine: the heuristic value 1 has been cached. -/
def cachedDogCounter : Counter :=
  ⟨emptyDictionary, [("dog".toList, 1)]⟩

/-- C7 witness: a fresh engine computes "dog" once, yielding value 1 and
state `cachedDogCounter`; the repeated call returns the same value with
the state fixed. -/
theorem count_deterministic_witness :
    cachedDogCounter.count "dog".toList = some (1, cachedDogCounter) ∧
    countVal cachedDogCounter "dog".toList
      = countVal (Counter.new emptyDictionary) "dog".toList :=
  count_deterministic (Counter.new emptyDictionary) "dog".toList 1
    cachedDogCounter rfl

/-- C8: the frame condition of a call.  The dictionary field is unchanged,
every prior cache entry survives, and the cache either is untouched or
grows by exactly the one pair (normalized word, heuristic value), and only
after the combined dictionary-then-cache lookup missed. -/
theorem count_frame (c : Counter) (w : List Char) (k : Nat) (c' : Counter)
    (h : c.count w = some (k, c')) :
    c'.dictionary = c.dictionary ∧
    (∀ e ∈ c.cache, e ∈ c'.cache) ∧
    (c'.cache = c.cache ∨
      (c.cached_count (normalize_word w) = none ∧
       get_syllable_count (normalize_word w) = some k ∧
       c'.cache = (normalize_word w, k) :: c.cache)) := by
  by_cases hv : invalid_input (normalize_word w) = true
  · rw [count_of_invalid c w hv] at h
    rw [Option.some.injEq, Prod.mk.injEq] at h
    obtain ⟨rfl, rfl⟩ := h
    exact ⟨rfl, fun e he => he, Or.inl rfl⟩
  · rw [Bool.not_eq_true] at hv
    cases hcc : c.cached_count (normalize_word w) with
    | some n =>
      rw [count_of_hit c w n hv hcc] at h
      rw [Option.some.injEq, Prod.mk.injEq] at h
      obtain ⟨rfl, rfl⟩ := h
      exact ⟨rfl, fun e he => he, Or.inl rfl⟩
    | none =>
      rw [count_of_miss c w hv hcc] at h
      cases hg : get_syllable_count (normalize_word w) with
      | none => rw [hg] at h; cases h
      | some n =>
        rw [hg] at h
        simp only [Option.map_some', Option.some.injEq, Prod.mk.injEq] at h
        obtain ⟨rfl, rfl⟩ := h
        exact ⟨rfl, fun e he => List.mem_cons_of_mem _ he,
          Or.inr ⟨rfl, rfl, rfl⟩⟩

/-- C8 witness: computing "cat" on a fresh empty-dictionary engine leaves
the dictionary unchanged (and, by the theorem's other conjuncts, only
prepends the one new cache pair). -/
theorem count_frame_witness :
    (Counter.new emptyDictionary).count "cat".toList
      = some (1, ⟨emptyDictionary, [("cat".toList, 1)]⟩) ∧
    (⟨emptyDictionary, [("cat".toList, 1)]⟩ : Counter).dictionary
      = (Counter.new emptyDictionary).dictionary :=
  ⟨rfl, (count_frame (Counter.new emptyDictionary) "cat".toList 1
    ⟨emptyDictionary, [("cat".toList, 1)]⟩ rfl).1⟩

/-- Unfolding the windows(2) count one pair at a time. -/
theorem pair_count_cons₂ (a b : Char) (rest : List Char) :
    pair_count (a :: b :: rest)
      = (if is_vowel b && !is_vowel a then 1 else 0) + pair_count (b :: rest) :=
  rfl

/-- If the head is not a vowel but some later character is, the windows(2)
loop counts at least one vowel-cluster start. -/
theorem pair_count_pos (a : Char) (l : List Char)
    (ha : is_vowel a = false) (h : ∃ v ∈ l, is_vowel v = true) :
    1 ≤ pair_count (a :: l) := by
  induction l generalizing a with
  | nil =>
    obtain ⟨v, hv, _⟩ := h
    cases hv
  | cons b rest ih =>
    rw [pair_count_cons₂]
    by_cases hb : is_vowel b = true
    · rw [hb, ha]
      simp
    · obtain ⟨v, hv, hvt⟩ := h
      rcases List.mem_cons.mp hv with rfl | hrest
      · exact absurd hvt hb
      · have := ih b (by simpa using hb) ⟨v, hrest, hvt⟩
        omega

/-- A word containing a vowel receives at least one increment from the
initial-vowel check or the windows(2) loop. -/
theorem base_count_pos (w : List Char) (v : Char) (hv : v ∈ w)
    (hvt : is_vowel v = true) : 1 ≤ base_count w := by
  cases w with
  | nil => cases hv
  | cons a rest =>
    by_cases ha : is_vowel a = true
    · have h1 : first_vowel_count (a :: rest) = 1 := by
        simp [first_vowel_count, ha]
      unfold base_count
      rw [h1]
      omega
    · rcases List.mem_cons.mp hv with rfl | hrest
      · exact absurd hvt ha
      · have h2 := pair_count_pos a rest (by simpa using ha) ⟨v, hrest, hvt⟩
        unfold base_count
        omega

/-- C9: for a non-empty lowercase-alphabetic word ending in 'e', the
running count reaching the silent-e correction is at least 1 (the trailing
'e' is a vowel, so some vowel-cluster start was counted), so the `usize`
subtraction `syllable_count -= 1` cannot underflow and the step returns
normally. -/
theorem silent_e_no_underflow (w : List Char) (h0 : w ≠ [])
    (halpha : ∀ c ∈ w, is_lower_alpha c = true)
    (he : w.getLast? = some 'e') :
    1 ≤ base_count w ∧
    silent_e_step w (base_count w) = some (base_count w - 1) := by
  have hmem : 'e' ∈ w := List.mem_of_getLast?_eq_some he
  have h1 : 1 ≤ base_count w := base_count_pos w 'e' hmem (by decide)
  refine ⟨h1, ?_⟩
  have hend : ends_with_e w = true := by
    unfold ends_with_e
    rw [he]
    rfl
  unfold silent_e_step
  rw [if_pos hend, if_neg (by omega)]

/-- C9 witness: the word "the" is non-empty lowercase alphabetic, ends in
'e', and its running count before the correction is 1. -/
theorem silent_e_no_underflow_witness :
    1 ≤ base_count "the".toList ∧
    silent_e_step "the".toList (base_count "the".toList)
      = some (base_count "the".toList - 1) :=
  silent_e_no_underflow "the".toList (by decide) (by decide) (by decide)

/-- ASCII-lowercasing an uppercase letter lands in a-z: the shifted code
point is the exact value of the constructed character. -/
theorem lower_alpha_of_alpha_lowercased (c : Char)
    (h : is_ascii_alphabetic (to_ascii_lowercase_char c) = true) :
    is_lower_alpha (to_ascii_lowercase_char c) = true := by
  unfold to_ascii_lowercase_char at h ⊢
  by_cases hu : is_ascii_uppercase c = true
  · rw [if_pos hu] at h ⊢
    have hu' : 0x41 ≤ c.toNat ∧ c.toNat ≤ 0x5a := by
      simpa [is_ascii_uppercase] using hu
    have hval : (Char.ofNat (c.toNat + 32)).toNat = c.toNat + 32 := by
      unfold Char.ofNat
      rw [dif_pos (Or.inl (by omega : c.toNat + 32 < 0xd800))]
      rfl
    unfold is_lower_alpha
    rw [decide_eq_true_eq, hval]
    omega
  · rw [if_neg hu] at h ⊢
    have hu' : ¬(0x41 ≤ c.toNat ∧ c.toNat ≤ 0x5a) := by
      simpa [is_ascii_uppercase] using hu
    have h' : (0x41 ≤ c.toNat ∧ c.toNat ≤ 0x5a) ∨
        (0x61 ≤ c.toNat ∧ c.toNat ≤ 0x7a) := by
      simpa [is_ascii_alphabetic] using h
    unfold is_lower_alpha
    rw [decide_eq_true_eq]
    rcases h' with h' | h'
    · exact absurd h' hu'
    · exact h'

/-- Passing the validity check means the word is non-empty and every
character is ASCII-alphabetic. -/
theorem valid_spec (w : List Char) (h : invalid_input w = false) :
    w ≠ [] ∧ ∀ ch ∈ w, is_ascii_alphabetic ch = true := by
  unfold invalid_input at h
  rw [Bool.or_eq_false_iff] at h
  obtain ⟨h1, h2⟩ := h
  constructor
  · intro hw
    subst hw
    cases h1
  · intro ch hch
    simp only [List.any_eq_false, Bool.not_eq_eq_eq_not, Bool.not_true] at h2
    simpa using h2 ch hch

/-- A normalized word that passes the validity check is non-empty and all
lowercase a-z: lowercasing left no uppercase letter behind. -/
theorem normalized_lower (w : List Char)
    (h : invalid_input (normalize_word w) = false) :
    normalize_word w ≠ [] ∧
    ∀ ch ∈ normalize_word w, is_lower_alpha ch = true := by
  obtain ⟨h1, h2⟩ := valid_spec _ h
  refine ⟨h1, ?_⟩
  intro ch hch
  have hmap : ∃ x ∈ trim_matches is_ascii_punctuation w,
      to_ascii_lowercase_char x = ch := by
    simpa [normalize_word, to_ascii_lowercase] using hch
  obtain ⟨x, -, rfl⟩ := hmap
  exact lower_alpha_of_alpha_lowercased x (h2 _ hch)

/-- The cache-key invariant of C10: every key is a non-empty word of
lowercase ASCII letters, and no key is also a dictionary key. -/
def CacheInv (c : Counter) : Prop :=
  ∀ p ∈ c.cache,
    p.1 ≠ [] ∧ (∀ ch ∈ p.1, is_lower_alpha ch = true) ∧
      c.dictionary p.1 = none

/-- C10: every call to `count` preserves the cache-key invariant: the only
insertion is the validated normalized word, made after the combined
dictionary-then-cache lookup missed, so the new key is non-empty lowercase
ASCII and absent from the dictionary. -/
theorem cache_invariant_preserved (c : Counter) (w : List Char) (k : Nat)
    (c' : Counter) (hInv : CacheInv c) (h : c.count w = some (k, c')) :
    CacheInv c' := by
  by_cases hv : invalid_input (normalize_word w) = true
  · rw [count_of_invalid c w hv] at h
    rw [Option.some.injEq, Prod.mk.injEq] at h
    obtain ⟨rfl, rfl⟩ := h
    exact hInv
  · rw [Bool.not_eq_true] at hv
    cases hcc : c.cached_count (normalize_word w) with
    | some n =>
      rw [count_of_hit c w n hv hcc] at h
      rw [Option.some.injEq, Prod.mk.injEq] at h
      obtain ⟨rfl, rfl⟩ := h
      exact hInv
    | none =>
      rw [count_of_miss c w hv hcc] at h
      cases hg : get_syllable_count (normalize_word w) with
      | none =>
        rw [hg] at h
        cases h
      | some n =>
        rw [hg] at h
        simp only [Option.map_some', Option.some.injEq, Prod.mk.injEq] at h
        obtain ⟨rfl, rfl⟩ := h
        obtain ⟨hne, hlow⟩ := normalized_lower w hv
        have hdnone : c.dictionary (normalize_word w) = none :=
          (cached_count_eq_none c _ hcc).1
        intro p hp
        rcases List.mem_cons.mp hp with rfl | hp'
        · exact ⟨hne, hlow, hdnone⟩
        · exact hInv p hp'

/-- C10 witness: a fresh empty-dictionary engine satisfies the invariant
vacuously; after computing "cow" the grown cache still satisfies it. -/
theorem cache_invariant_preserved_witness :
    (Counter.new emptyDictionary).count "cow".toList
      = some (1, ⟨emptyDictionary, [("cow".toList, 1)]⟩) ∧
    CacheInv ⟨emptyDictionary, [("cow".toList, 1)]⟩ :=
  ⟨rfl, cache_invariant_preserved (Counter.new emptyDictionary)
    "cow".toList 1 ⟨emptyDictionary, [("cow".toList, 1)]⟩
    (fun p hp => by cases hp) rfl⟩
